import Mathlib

/-!
Shallow embedding of the temporal occupancy reconstruction algorithm
implemented by read_occupancy_csv in
models/Vehicle/collision detection/check_collision.py.

Source times and coordinates are modelled as exact rationals; numpy's
np.around with 5 decimals is modelled as decimal rounding half to even;
Python's int() conversion is modelled as truncation toward zero.
-/

namespace CheckCollision

section

attribute [local semireducible] Rat.add Rat.mul Rat.sub Rat.inv Rat.ofScientific

/-- A polygon is the ordered list of its 2D vertices, one (x, y) pair per
coordinate column of the two underlying csv rows. -/
abbrev Polygon : Type := List (ℚ × ℚ)

/-- One csv row: a time stamp in the first column followed by the coordinate
values of the remaining columns. -/
structure CsvRow where
  time : ℚ
  values : List ℚ
deriving DecidableEq

/-- One logical record, built from two consecutive csv rows: the first row
gives the start time and the x coordinates, the second row the end time and
the y coordinates; the polygon pairs the coordinates in order. -/
structure IntervalRecord where
  t0 : ℚ
  t1 : ℚ
  polygon : Polygon
deriving DecidableEq

/-- The fatal errors read_occupancy_csv can raise while processing records:
the two assert statements and the final raise branch, in source order. -/
inductive CsvError where
  | stepSizeExceeded
  | invalidTimeInterval
  | notChronological
deriving DecidableEq

/-- Floor of a rational, computed from the normalized numerator and
denominator; Int division is euclidean, hence flooring for the positive
denominator of a normalized rational. -/
def qfloor (q : ℚ) : ℤ := q.num / (q.den : ℤ)

/-- Rounding to the nearest integer, ties to even, as numpy does. -/
def roundHalfEven (x : ℚ) : ℤ :=
  let n : ℤ := qfloor x
  let f : ℚ := x - n
  if f < 1 / 2 then n
  else if 1 / 2 < f then n + 1
  else if n % 2 = 0 then n else n + 1

/-- Model of np.around(x, 5): decimal rounding half to even at 5 places. -/
def round5 (x : ℚ) : ℚ := (roundHalfEven (x * 100000) : ℚ) / 100000

/-- Model of Python's int() applied to a rational: truncation toward zero. -/
def pyInt (q : ℚ) : ℤ := if 0 ≤ q then qfloor q else -qfloor (-q)

/-- The mutable state of the reading loop in read_occupancy_csv:
the two occupancy lists under construction, the pending shape_list buffer
and the running grid time scenario_time_step.  An occupancy is modelled as
a pair of its integer time index and its shape. -/
structure ReadState where
  occupancies_cumulative : List (ℤ × List Polygon)
  occupancies_coinciding : List (ℤ × Polygon)
  shape_list : List Polygon
  scenario_time_step : ℚ
deriving DecidableEq

/-- The loop state before the first record is processed. -/
def initState : ReadState :=
  { occupancies_cumulative := []
    occupancies_coinciding := []
    shape_list := []
    scenario_time_step := 0 }

/-- The trailing coinciding-occupancy step of the loop body: if the interval
straddles or touches the current grid time, append a coinciding occupancy
holding exactly this record's polygon and advance the grid time by one step.
The Python code runs this after the cumulative classification, which never
changes scenario_time_step. -/
def coincidingUpdate (step_size : ℚ) (s : ReadState) (r : IntervalRecord) :
    ReadState :=
  if r.t1 ≥ s.scenario_time_step ∧ r.t0 ≤ s.scenario_time_step then
    { s with
        occupancies_coinciding := s.occupancies_coinciding ++
          [(pyInt (s.scenario_time_step / step_size), r.polygon)]
        scenario_time_step := s.scenario_time_step + step_size }
  else s

/-- The first-grid-point special case of the loop body: if the grid time is
still 0 and the record starts at time 0, append a cumulative occupancy at
grid index 0 holding the current shape_list buffer before the record is
otherwise processed. -/
def specialUpdate (step_size : ℚ) (s : ReadState) (r : IntervalRecord) :
    ReadState :=
  if s.scenario_time_step = 0 ∧ r.t0 = 0 then
    { s with occupancies_cumulative := s.occupancies_cumulative ++
        [(pyInt (s.scenario_time_step / step_size), s.shape_list)] }
  else s

/-- The four-way classification of a record against the current grid time:
entirely before it (buffer only), ending exactly on it (close out the
cumulative group), covering it (close out and re-seed the buffer), or
starting after it (fatal chronological-order error). -/
def classify (step_size : ℚ) (s : ReadState) (r : IntervalRecord) :
    Except CsvError ReadState :=
  if r.t1 < s.scenario_time_step then
    .ok { s with shape_list := s.shape_list ++ [r.polygon] }
  else if r.t1 = s.scenario_time_step then
    .ok { s with
        occupancies_cumulative := s.occupancies_cumulative ++
          [(pyInt (s.scenario_time_step / step_size),
            s.shape_list ++ [r.polygon])]
        shape_list := [] }
  else if r.t0 ≤ s.scenario_time_step then
    .ok { s with
        occupancies_cumulative := s.occupancies_cumulative ++
          [(pyInt (s.scenario_time_step / step_size),
            s.shape_list ++ [r.polygon])]
        shape_list := [r.polygon] }
  else .error .notChronological

/-- One iteration of the loop body of read_occupancy_csv on a complete
record: the two asserts, the first-grid-point special case, the four-way
classification against the current grid time, and the coinciding check.
Neither the special case nor the classification changes
scenario_time_step, so the coinciding check compares the record against
the same grid time the classification used, as in the source. -/
def processRecord (step_size : ℚ) (s : ReadState) (r : IntervalRecord) :
    Except CsvError ReadState :=
  if step_size < round5 (r.t1 - r.t0) then .error .stepSizeExceeded
  else if round5 (r.t1 - r.t0) < 0 then .error .invalidTimeInterval
  else
    match classify step_size (specialUpdate step_size s r) r with
    | .error e => .error e
    | .ok s2 => .ok (coincidingUpdate step_size s2 r)

/-- The reading loop over the list of complete records. -/
def runFrom (step_size : ℚ) : ReadState → List IntervalRecord →
    Except CsvError ReadState
  | s, [] => .ok s
  | s, r :: rest =>
    match processRecord step_size s r with
    | .error e => .error e
    | .ok s1 => runFrom step_size s1 rest

/-- Pairing of consecutive csv rows into records, mirroring the flag
alternation of the source loop: a trailing unpaired row is stored into the
buffers but never processed, hence dropped. -/
def pairRows : List CsvRow → List IntervalRecord
  | r1 :: r2 :: rest =>
    { t0 := r1.time, t1 := r2.time,
      polygon := r1.values.zip r2.values } :: pairRows rest
  | _ => []

/-- Wrapper of an occupancy list together with its initial time index,
modelling commonroad's SetBasedPrediction as used by the source. -/
structure SetBasedPrediction (α : Type) where
  initial_time_step : ℤ
  occupancy_set : List (ℤ × α)
deriving DecidableEq

/-- The whole of read_occupancy_csv on an in-memory table of rows: run the
loop from the initial state and wrap both occupancy lists with initial time
index 0.  The first component is the coinciding prediction, the second the
cumulative prediction, as in the source's return statement. -/
def read_occupancy_csv (step_size : ℚ) (rows : List CsvRow) :
    Except CsvError (SetBasedPrediction Polygon ×
      SetBasedPrediction (List Polygon)) :=
  (runFrom step_size initState (pairRows rows)).map fun s =>
    (⟨0, s.occupancies_coinciding⟩, ⟨0, s.occupancies_cumulative⟩)

deriving instance DecidableEq for Except

theorem qfloor_eq (q : ℚ) : qfloor q = ⌊q⌋ := Rat.floor_def.symm

theorem pyInt_natCast (n : ℕ) : pyInt (n : ℚ) = n := by
  unfold pyInt
  rw [if_pos (by positivity), qfloor_eq]
  exact_mod_cast Int.floor_natCast n

theorem pyInt_zero_div (q : ℚ) : pyInt (0 / q) = 0 := by
  rw [zero_div]
  exact_mod_cast pyInt_natCast 0

theorem pyInt_mul_div_self (ss : ℚ) (hss : ss ≠ 0) (n : ℕ) :
    pyInt ((n : ℚ) * ss / ss) = n := by
  rw [mul_div_assoc, div_self hss, mul_one]
  exact pyInt_natCast n

theorem round5_zero : round5 0 = 0 := by decide

theorem specialUpdate_scenario (ss : ℚ) (s : ReadState) (r : IntervalRecord) :
    (specialUpdate ss s r).scenario_time_step = s.scenario_time_step := by
  unfold specialUpdate; split <;> rfl

theorem specialUpdate_coin (ss : ℚ) (s : ReadState) (r : IntervalRecord) :
    (specialUpdate ss s r).occupancies_coinciding =
      s.occupancies_coinciding := by
  unfold specialUpdate; split <;> rfl

theorem specialUpdate_shape (ss : ℚ) (s : ReadState) (r : IntervalRecord) :
    (specialUpdate ss s r).shape_list = s.shape_list := by
  unfold specialUpdate; split <;> rfl

theorem specialUpdate_cases (ss : ℚ) (s : ReadState) (r : IntervalRecord) :
    (¬ (s.scenario_time_step = 0 ∧ r.t0 = 0) ∧ specialUpdate ss s r = s) ∨
    ((s.scenario_time_step = 0 ∧ r.t0 = 0) ∧ specialUpdate ss s r =
      { s with occupancies_cumulative := s.occupancies_cumulative ++
          [(0, s.shape_list)] }) := by
  unfold specialUpdate
  split
  next hc =>
    right
    refine ⟨hc, ?_⟩
    rw [hc.1, pyInt_zero_div]
  next hc => exact Or.inl ⟨hc, rfl⟩

theorem coincidingUpdate_cases (ss : ℚ) (s : ReadState) (r : IntervalRecord) :
    (¬ (r.t1 ≥ s.scenario_time_step ∧ r.t0 ≤ s.scenario_time_step) ∧
      coincidingUpdate ss s r = s) ∨
    ((r.t1 ≥ s.scenario_time_step ∧ r.t0 ≤ s.scenario_time_step) ∧
      coincidingUpdate ss s r =
        { s with
            occupancies_coinciding := s.occupancies_coinciding ++
              [(pyInt (s.scenario_time_step / ss), r.polygon)]
            scenario_time_step := s.scenario_time_step + ss }) := by
  unfold coincidingUpdate
  split
  next hc => exact Or.inr ⟨hc, rfl⟩
  next hc => exact Or.inl ⟨hc, rfl⟩

theorem classify_ok (ss : ℚ) (s : ReadState) (r : IntervalRecord)
    (s2 : ReadState) (h : classify ss s r = .ok s2) :
    (r.t1 < s.scenario_time_step ∧
      s2 = { s with shape_list := s.shape_list ++ [r.polygon] }) ∨
    (r.t1 = s.scenario_time_step ∧
      s2 = { s with
        occupancies_cumulative := s.occupancies_cumulative ++
          [(pyInt (s.scenario_time_step / ss),
            s.shape_list ++ [r.polygon])]
        shape_list := [] }) ∨
    (s.scenario_time_step < r.t1 ∧ r.t0 ≤ s.scenario_time_step ∧
      s2 = { s with
        occupancies_cumulative := s.occupancies_cumulative ++
          [(pyInt (s.scenario_time_step / ss),
            s.shape_list ++ [r.polygon])]
        shape_list := [r.polygon] }) := by
  unfold classify at h
  split_ifs at h with h1 h2 h3
  · exact Or.inl ⟨h1, (Except.ok.inj h).symm⟩
  · exact Or.inr (Or.inl ⟨h2, (Except.ok.inj h).symm⟩)
  · exact Or.inr (Or.inr ⟨lt_of_le_of_ne (not_lt.mp h1) (Ne.symm h2), h3,
      (Except.ok.inj h).symm⟩)

theorem processRecord_ok (ss : ℚ) (s : ReadState) (r : IntervalRecord)
    (s1 : ReadState) (h : processRecord ss s r = .ok s1) :
    round5 (r.t1 - r.t0) ≤ ss ∧ 0 ≤ round5 (r.t1 - r.t0) ∧
    ∃ s2, classify ss (specialUpdate ss s r) r = .ok s2 ∧
      s1 = coincidingUpdate ss s2 r := by
  unfold processRecord at h
  split_ifs at h with h1 h2
  refine ⟨not_lt.mp h1, not_lt.mp h2, ?_⟩
  cases hc : classify ss (specialUpdate ss s r) r with
  | error e => rw [hc] at h; exact absurd h (by simp)
  | ok s2 =>
    rw [hc] at h
    exact ⟨s2, rfl, (Except.ok.inj h).symm⟩

theorem runFrom_cons (ss : ℚ) (s : ReadState) (r : IntervalRecord)
    (rest : List IntervalRecord) (s1 : ReadState)
    (h : runFrom ss s (r :: rest) = .ok s1) :
    ∃ st, processRecord ss s r = .ok st ∧ runFrom ss st rest = .ok s1 := by
  unfold runFrom at h
  cases he : processRecord ss s r with
  | error e => rw [he] at h; exact absurd h (by simp)
  | ok st => rw [he] at h; exact ⟨st, rfl, h⟩

theorem runFrom_rec (ss : ℚ) (P : ReadState → Prop)
    (Q : IntervalRecord → Prop)
    (hstep : ∀ s r s1, Q r → P s → processRecord ss s r = .ok s1 → P s1) :
    ∀ recs s s1, (∀ r ∈ recs, Q r) → P s → runFrom ss s recs = .ok s1 →
      P s1
  | [], s, s1, _, hp, h => by
    unfold runFrom at h
    exact (Except.ok.inj h) ▸ hp
  | r :: rest, s, s1, hq, hp, h => by
    obtain ⟨st, he, hrun⟩ := runFrom_cons ss s r rest s1 h
    exact runFrom_rec ss P Q hstep rest st s1
      (fun x hx => hq x (List.mem_cons_of_mem _ hx))
      (hstep s r st (hq r (List.mem_cons_self _ _)) hp he) hrun

/-- The inductive invariant of the reading loop: the grid time equals the
number of coinciding occupancies times the step size, the coinciding time
indices are exactly 0, 1, ..., and the cumulative time indices are
non-decreasing, non-negative and bounded by the number of coinciding
occupancies. -/
structure Inv (ss : ℚ) (s : ReadState) : Prop where
  g_eq : s.scenario_time_step = (s.occupancies_coinciding.length : ℚ) * ss
  coin_idx : s.occupancies_coinciding.map Prod.fst =
    (List.range s.occupancies_coinciding.length).map Int.ofNat
  cum_mono : List.Pairwise (· ≤ ·) (s.occupancies_cumulative.map Prod.fst)
  cum_bound : ∀ i ∈ s.occupancies_cumulative.map Prod.fst,
    0 ≤ i ∧ i ≤ (s.occupancies_coinciding.length : ℤ)

theorem initState_Inv (ss : ℚ) : Inv ss initState := by
  constructor <;> simp [initState]

theorem Inv_update_shape (ss : ℚ) (t : ReadState) (sl : List Polygon)
    (ht : Inv ss t) : Inv ss { t with shape_list := sl } :=
  ⟨ht.g_eq, ht.coin_idx, ht.cum_mono, ht.cum_bound⟩

theorem Inv_emit_nocoin (ss : ℚ) (hss : 0 < ss) (t : ReadState)
    (grp : List Polygon) (sl : List Polygon) (ht : Inv ss t) :
    Inv ss { t with
      occupancies_cumulative := t.occupancies_cumulative ++
        [(pyInt (t.scenario_time_step / ss), grp)]
      shape_list := sl } := by
  have hidx : pyInt (t.scenario_time_step / ss) =
      (t.occupancies_coinciding.length : ℤ) := by
    rw [ht.g_eq]
    exact_mod_cast pyInt_mul_div_self ss (ne_of_gt hss) _
  refine ⟨ht.g_eq, ht.coin_idx, ?_, ?_⟩
  · simp only [List.map_append, List.map_cons, List.map_nil]
    rw [List.pairwise_append]
    refine ⟨ht.cum_mono, by simp, ?_⟩
    intro x hx y hy
    simp only [List.mem_singleton] at hy
    subst hy
    rw [hidx]
    exact (ht.cum_bound x hx).2
  · intro i hi
    simp only [List.map_append, List.map_cons, List.map_nil,
      List.mem_append, List.mem_singleton] at hi
    rcases hi with hi | hi
    · exact ht.cum_bound i hi
    · subst hi
      rw [hidx]
      exact ⟨Int.ofNat_nonneg _, le_refl _⟩

theorem Inv_emit_coin (ss : ℚ) (hss : 0 < ss) (t : ReadState)
    (grp : List Polygon) (sl : List Polygon) (p : Polygon) (ht : Inv ss t) :
    Inv ss { t with
      occupancies_cumulative := t.occupancies_cumulative ++
        [(pyInt (t.scenario_time_step / ss), grp)]
      occupancies_coinciding := t.occupancies_coinciding ++
        [(pyInt (t.scenario_time_step / ss), p)]
      shape_list := sl
      scenario_time_step := t.scenario_time_step + ss } := by
  have hidx : pyInt (t.scenario_time_step / ss) =
      (t.occupancies_coinciding.length : ℤ) := by
    rw [ht.g_eq]
    exact_mod_cast pyInt_mul_div_self ss (ne_of_gt hss) _
  constructor
  · simp only [List.length_append, List.length_cons, List.length_nil]
    rw [ht.g_eq]
    push_cast
    ring
  · simp only [List.map_append, List.map_cons, List.map_nil,
      List.length_append, List.length_cons, List.length_nil]
    rw [ht.coin_idx, hidx, Nat.add_zero, List.range_succ]
    simp
  · simp only [List.map_append, List.map_cons, List.map_nil]
    rw [List.pairwise_append]
    refine ⟨ht.cum_mono, by simp, ?_⟩
    intro x hx y hy
    simp only [List.mem_singleton] at hy
    subst hy
    rw [hidx]
    exact (ht.cum_bound x hx).2
  · intro i hi
    simp only [List.map_append, List.map_cons, List.map_nil,
      List.mem_append, List.mem_singleton, List.length_append,
      List.length_cons, List.length_nil] at hi ⊢
    rcases hi with hi | hi
    · have := ht.cum_bound i hi
      omega
    · subst hi
      rw [hidx]
      constructor
      · exact Int.ofNat_nonneg _
      · omega

theorem classify_coin_Inv (ss : ℚ) (hss : 0 < ss) (t : ReadState)
    (r : IntervalRecord) (s2 : ReadState) (ht : Inv ss t)
    (hc : classify ss t r = .ok s2) : Inv ss (coincidingUpdate ss s2 r) := by
  rcases classify_ok ss t r s2 hc with ⟨ha, hs2⟩ | ⟨hb, hs2⟩ |
    ⟨hc1, hc2, hs2⟩
  · subst hs2
    rcases coincidingUpdate_cases ss
        { t with shape_list := t.shape_list ++ [r.polygon] } r with
      ⟨_, hco⟩ | ⟨hy, _⟩
    · rw [hco]
      exact Inv_update_shape ss t _ ht
    · exact absurd hy.1 (not_le.mpr ha)
  · subst hs2
    rcases coincidingUpdate_cases ss
        { t with
            occupancies_cumulative := t.occupancies_cumulative ++
              [(pyInt (t.scenario_time_step / ss),
                t.shape_list ++ [r.polygon])]
            shape_list := [] } r with ⟨_, hco⟩ | ⟨_, hco⟩
    · rw [hco]
      exact Inv_emit_nocoin ss hss t _ _ ht
    · rw [hco]
      exact Inv_emit_coin ss hss t _ _ _ ht
  · subst hs2
    rcases coincidingUpdate_cases ss
        { t with
            occupancies_cumulative := t.occupancies_cumulative ++
              [(pyInt (t.scenario_time_step / ss),
                t.shape_list ++ [r.polygon])]
            shape_list := [r.polygon] } r with ⟨hn, _⟩ | ⟨_, hco⟩
    · exact absurd ⟨le_of_lt hc1, hc2⟩ hn
    · rw [hco]
      exact Inv_emit_coin ss hss t _ _ _ ht

theorem step_Inv (ss : ℚ) (hss : 0 < ss) (s : ReadState)
    (r : IntervalRecord) (s1 : ReadState) (hi : Inv ss s)
    (h : processRecord ss s r = .ok s1) : Inv ss s1 := by
  obtain ⟨-, -, s2, hc, hs1⟩ := processRecord_ok ss s r s1 h
  subst hs1
  rcases specialUpdate_cases ss s r with ⟨-, hA⟩ | ⟨⟨hg0, -⟩, hA⟩
  · rw [hA] at hc
    exact classify_coin_Inv ss hss s r s2 hi hc
  · rw [hA] at hc
    refine classify_coin_Inv ss hss _ r s2 ?_ hc
    have hL : (s.occupancies_coinciding.length : ℤ) = 0 := by
      have hz := hg0 ▸ hi.g_eq
      rcases mul_eq_zero.mp hz.symm with h0 | h0
      · exact_mod_cast h0
      · exact absurd h0 (ne_of_gt hss)
    refine ⟨hi.g_eq, hi.coin_idx, ?_, ?_⟩
    · simp only [List.map_append, List.map_cons, List.map_nil]
      rw [List.pairwise_append]
      refine ⟨hi.cum_mono, by simp, ?_⟩
      intro x hx y hy
      simp only [List.mem_singleton] at hy
      subst hy
      have := hi.cum_bound x hx
      omega
    · intro i hi'
      simp only [List.map_append, List.map_cons, List.map_nil,
        List.mem_append, List.mem_singleton] at hi'
      rcases hi' with hi' | hi'
      · exact hi.cum_bound i hi'
      · subst hi'
        omega

theorem runFrom_Inv (ss : ℚ) (hss : 0 < ss) (recs : List IntervalRecord)
    (s1 : ReadState) (h : runFrom ss initState recs = .ok s1) :
    Inv ss s1 :=
  runFrom_rec ss (Inv ss) (fun _ => True)
    (fun s r s1 _ => step_Inv ss hss s r s1) recs initState s1
    (fun _ _ => trivial) (initState_Inv ss) h

/-- Every time index of the coinciding list also occurs among the
cumulative time indices. -/
def CoinSubCum (s : ReadState) : Prop :=
  ∀ i ∈ s.occupancies_coinciding.map Prod.fst,
    i ∈ s.occupancies_cumulative.map Prod.fst

theorem step_CoinSubCum (ss : ℚ) (s : ReadState) (r : IntervalRecord)
    (s1 : ReadState) (hp : CoinSubCum s)
    (h : processRecord ss s r = .ok s1) : CoinSubCum s1 := by
  obtain ⟨-, -, s2, hc, hs1⟩ := processRecord_ok ss s r s1 h
  subst hs1
  have hsub : CoinSubCum (specialUpdate ss s r) := by
    intro i hi
    rw [specialUpdate_coin] at hi
    rcases specialUpdate_cases ss s r with ⟨-, hA⟩ | ⟨-, hA⟩ <;> rw [hA]
    · exact hp i hi
    · simp only [List.map_append, List.mem_append]
      exact Or.inl (hp i hi)
  rcases classify_ok ss (specialUpdate ss s r) r s2 hc with ⟨ha, hs2⟩ |
    ⟨hb, hs2⟩ | ⟨h1, h2, hs2⟩
  · subst hs2
    rcases coincidingUpdate_cases ss
        { specialUpdate ss s r with
            shape_list := (specialUpdate ss s r).shape_list ++ [r.polygon] }
        r with ⟨_, hco⟩ | ⟨hy, _⟩
    · rw [hco]
      intro i hi
      exact hsub i hi
    · exact absurd hy.1 (not_le.mpr ha)
  · subst hs2
    rcases coincidingUpdate_cases ss
        { specialUpdate ss s r with
            occupancies_cumulative :=
              (specialUpdate ss s r).occupancies_cumulative ++
              [(pyInt ((specialUpdate ss s r).scenario_time_step / ss),
                (specialUpdate ss s r).shape_list ++ [r.polygon])]
            shape_list := [] } r with ⟨_, hco⟩ | ⟨_, hco⟩
    · rw [hco]
      intro i hi
      simp only [List.map_append, List.mem_append]
      exact Or.inl (hsub i hi)
    · rw [hco]
      intro i hi
      simp only [List.map_append, List.map_cons, List.map_nil,
        List.mem_append, List.mem_singleton] at hi ⊢
      rcases hi with hi | hi
      · exact Or.inl (hsub i hi)
      · exact Or.inr (by simpa using hi)
  · subst hs2
    rcases coincidingUpdate_cases ss
        { specialUpdate ss s r with
            occupancies_cumulative :=
              (specialUpdate ss s r).occupancies_cumulative ++
              [(pyInt ((specialUpdate ss s r).scenario_time_step / ss),
                (specialUpdate ss s r).shape_list ++ [r.polygon])]
            shape_list := [r.polygon] } r with ⟨hn, _⟩ | ⟨_, hco⟩
    · exact absurd ⟨le_of_lt h1, h2⟩ hn
    · rw [hco]
      intro i hi
      simp only [List.map_append, List.map_cons, List.map_nil,
        List.mem_append, List.mem_singleton] at hi ⊢
      rcases hi with hi | hi
      · exact Or.inl (hsub i hi)
      · exact Or.inr (by simpa using hi)

theorem runFrom_CoinSubCum (ss : ℚ) (recs : List IntervalRecord)
    (s1 : ReadState) (h : runFrom ss initState recs = .ok s1) :
    CoinSubCum s1 :=
  runFrom_rec ss CoinSubCum (fun _ => True)
    (fun s r s1 _ => step_CoinSubCum ss s r s1) recs initState s1
    (fun _ _ => trivial) (by intro i hi; simp [initState] at hi) h

theorem read_ok (ss : ℚ) (rows : List CsvRow)
    (pCoin : SetBasedPrediction Polygon)
    (pCum : SetBasedPrediction (List Polygon))
    (h : read_occupancy_csv ss rows = .ok (pCoin, pCum)) :
    ∃ s1, runFrom ss initState (pairRows rows) = .ok s1 ∧
      pCoin = ⟨0, s1.occupancies_coinciding⟩ ∧
      pCum = ⟨0, s1.occupancies_cumulative⟩ := by
  unfold read_occupancy_csv at h
  cases hr : runFrom ss initState (pairRows rows) with
  | error e =>
    rw [hr] at h
    exact absurd h (by simp [Except.map])
  | ok s1 =>
    rw [hr] at h
    simp only [Except.map, Except.ok.injEq, Prod.mk.injEq] at h
    exact ⟨s1, rfl, h.1.symm, h.2.symm⟩

/-- The stronger loop invariant available when every record has a truly
non-negative duration: every cumulative index is below the coinciding
count or zero, indices at least 1 occur at most once, the cumulative list
is empty while no coinciding occupancy exists, and index 0 occurs at most
twice. -/
structure HInv (ss : ℚ) (s : ReadState) : Prop where
  g_eq : s.scenario_time_step = (s.occupancies_coinciding.length : ℚ) * ss
  lt_or_zero : ∀ i ∈ s.occupancies_cumulative.map Prod.fst,
    i < (s.occupancies_coinciding.length : ℤ) ∨ i = 0
  count_pos : ∀ n : ℤ, 1 ≤ n →
    (s.occupancies_cumulative.map Prod.fst).count n ≤ 1
  len0_nil : s.occupancies_coinciding.length = 0 →
    s.occupancies_cumulative = []
  count0 : (s.occupancies_cumulative.map Prod.fst).count 0 ≤ 2

theorem HInv_emit (ss : ℚ) (hss : 0 < ss) (t : ReadState)
    (grp sl : List Polygon) (p : Polygon) (ht : HInv ss t) :
    HInv ss { t with
      occupancies_cumulative := t.occupancies_cumulative ++
        [(pyInt (t.scenario_time_step / ss), grp)]
      occupancies_coinciding := t.occupancies_coinciding ++
        [(pyInt (t.scenario_time_step / ss), p)]
      shape_list := sl
      scenario_time_step := t.scenario_time_step + ss } := by
  have hidx : pyInt (t.scenario_time_step / ss) =
      (t.occupancies_coinciding.length : ℤ) := by
    rw [ht.g_eq]
    exact_mod_cast pyInt_mul_div_self ss (ne_of_gt hss) _
  constructor
  · simp only [List.length_append, List.length_cons, List.length_nil]
    rw [ht.g_eq]
    push_cast
    ring
  · intro i hi
    simp only [List.map_append, List.map_cons, List.map_nil,
      List.mem_append, List.mem_singleton, List.length_append,
      List.length_cons, List.length_nil] at hi ⊢
    rcases hi with hi | hi
    · rcases ht.lt_or_zero i hi with hlt | h0
      · left; omega
      · right; exact h0
    · subst hi
      rw [hidx]
      left
      omega
  · intro n hn
    simp only [List.map_append, List.map_cons, List.map_nil,
      List.count_append]
    by_cases hnL : n = (t.occupancies_coinciding.length : ℤ)
    · have hold : (t.occupancies_cumulative.map Prod.fst).count n = 0 := by
        rw [List.count_eq_zero]
        intro hmem
        rcases ht.lt_or_zero n hmem with hlt | h0
        · omega
        · omega
      rw [hold, hidx, ← hnL]
      simp
    · have hone : ([pyInt (t.scenario_time_step / ss)] : List ℤ).count n
          = 0 := by
        rw [List.count_eq_zero]
        simp only [List.mem_singleton]
        rw [hidx]
        exact hnL
      have := ht.count_pos n hn
      omega
  · intro hlen
    simp only [List.length_append, List.length_cons, List.length_nil]
      at hlen
    omega
  · simp only [List.map_append, List.map_cons, List.map_nil,
      List.count_append]
    by_cases hL : t.occupancies_coinciding.length = 0
    · rw [ht.len0_nil hL]
      have hle : ([pyInt (t.scenario_time_step / ss)] : List ℤ).count 0
          ≤ 1 := by
        have := List.count_le_length (0 : ℤ)
          [pyInt (t.scenario_time_step / ss)]
        simpa using this
      simp only [List.map_nil, List.count_nil]
      omega
    · have hz : ([pyInt (t.scenario_time_step / ss)] : List ℤ).count 0
          = 0 := by
        rw [List.count_eq_zero]
        simp only [List.mem_singleton]
        rw [hidx]
        omega
      have h2 := ht.count0
      omega

theorem step_HInv (ss : ℚ) (hss : 0 < ss) (s : ReadState)
    (r : IntervalRecord) (s1 : ReadState) (hr : r.t0 ≤ r.t1)
    (ht : HInv ss s) (h : processRecord ss s r = .ok s1) : HInv ss s1 := by
  obtain ⟨-, -, s2, hc, hs1⟩ := processRecord_ok ss s r s1 h
  subst hs1
  rcases specialUpdate_cases ss s r with ⟨-, hA⟩ | ⟨⟨hg0, ht0⟩, hA⟩
  · rw [hA] at hc
    rcases classify_ok ss s r s2 hc with ⟨ha, hs2⟩ | ⟨hb, hs2⟩ |
      ⟨h1, h2, hs2⟩
    · subst hs2
      rcases coincidingUpdate_cases ss
          { s with shape_list := s.shape_list ++ [r.polygon] } r with
        ⟨_, hco⟩ | ⟨hy, _⟩
      · rw [hco]
        exact ⟨ht.g_eq, ht.lt_or_zero, ht.count_pos, ht.len0_nil,
          ht.count0⟩
      · exact absurd hy.1 (not_le.mpr ha)
    · subst hs2
      rcases coincidingUpdate_cases ss
          { s with
              occupancies_cumulative := s.occupancies_cumulative ++
                [(pyInt (s.scenario_time_step / ss),
                  s.shape_list ++ [r.polygon])]
              shape_list := [] } r with ⟨hn, _⟩ | ⟨_, hco⟩
      · exact absurd ⟨ge_of_eq hb, hb ▸ hr⟩ hn
      · rw [hco]
        exact HInv_emit ss hss s _ _ _ ht
    · subst hs2
      rcases coincidingUpdate_cases ss
          { s with
              occupancies_cumulative := s.occupancies_cumulative ++
                [(pyInt (s.scenario_time_step / ss),
                  s.shape_list ++ [r.polygon])]
              shape_list := [r.polygon] } r with ⟨hn, _⟩ | ⟨_, hco⟩
      · exact absurd ⟨le_of_lt h1, h2⟩ hn
      · rw [hco]
        exact HInv_emit ss hss s _ _ _ ht
  · rw [hA] at hc
    have hL : (s.occupancies_coinciding.length : ℤ) = 0 := by
      have hz := hg0 ▸ ht.g_eq
      rcases mul_eq_zero.mp hz.symm with h0 | h0
      · exact_mod_cast h0
      · exact absurd h0 (ne_of_gt hss)
    have hLn : s.occupancies_coinciding.length = 0 := by exact_mod_cast hL
    have hcoin_nil : s.occupancies_coinciding = [] :=
      List.length_eq_zero.mp hLn
    have hcum_nil : s.occupancies_cumulative = [] := ht.len0_nil hLn
    rcases classify_ok ss
        { s with occupancies_cumulative := s.occupancies_cumulative ++
            [(0, s.shape_list)] } r s2 hc with ⟨ha, hs2⟩ | ⟨hb, hs2⟩ |
      ⟨h1, h2, hs2⟩
    · exfalso
      have ha' : r.t1 < s.scenario_time_step := ha
      rw [hg0] at ha'
      rw [ht0] at hr
      linarith
    · subst hs2
      rcases coincidingUpdate_cases ss
          { s with
              occupancies_cumulative := (s.occupancies_cumulative ++
                [(0, s.shape_list)]) ++
                [(pyInt (s.scenario_time_step / ss),
                  s.shape_list ++ [r.polygon])]
              shape_list := [] } r with ⟨hn, _⟩ | ⟨_, hco⟩
      · exact absurd ⟨ge_of_eq hb, hb ▸ hr⟩ hn
      · rw [hco]
        dsimp only
        rw [hcum_nil, hcoin_nil, hg0, pyInt_zero_div]
        constructor
        · simp
        · intro i hi
          right
          simp only [List.nil_append, List.singleton_append,
            List.map_cons, List.map_nil, List.mem_cons,
            List.not_mem_nil, or_false] at hi
          rcases hi with hi | hi <;> exact hi
        · intro n hn1
          simp only [List.nil_append, List.singleton_append,
            List.map_cons, List.map_nil]
          have hne : n ∉ ([0, 0] : List ℤ) := by
            simp only [List.mem_cons, List.not_mem_nil, or_false]
            omega
          rw [List.count_eq_zero.mpr hne]
          omega
        · intro hlen
          exact absurd hlen (by simp)
        · simp only [List.nil_append, List.singleton_append,
            List.map_cons, List.map_nil]
          decide
    · subst hs2
      rcases coincidingUpdate_cases ss
          { s with
              occupancies_cumulative := (s.occupancies_cumulative ++
                [(0, s.shape_list)]) ++
                [(pyInt (s.scenario_time_step / ss),
                  s.shape_list ++ [r.polygon])]
              shape_list := [r.polygon] } r with ⟨hn, _⟩ | ⟨_, hco⟩
      · exact absurd ⟨le_of_lt h1, h2⟩ hn
      · rw [hco]
        dsimp only
        rw [hcum_nil, hcoin_nil, hg0, pyInt_zero_div]
        constructor
        · simp
        · intro i hi
          right
          simp only [List.nil_append, List.singleton_append,
            List.map_cons, List.map_nil, List.mem_cons,
            List.not_mem_nil, or_false] at hi
          rcases hi with hi | hi <;> exact hi
        · intro n hn1
          simp only [List.nil_append, List.singleton_append,
            List.map_cons, List.map_nil]
          have hne : n ∉ ([0, 0] : List ℤ) := by
            simp only [List.mem_cons, List.not_mem_nil, or_false]
            omega
          rw [List.count_eq_zero.mpr hne]
          omega
        · intro hlen
          exact absurd hlen (by simp)
        · simp only [List.nil_append, List.singleton_append,
            List.map_cons, List.map_nil]
          decide

theorem runFrom_HInv (ss : ℚ) (hss : 0 < ss) (recs : List IntervalRecord)
    (s1 : ReadState) (hhon : ∀ r ∈ recs, r.t0 ≤ r.t1)
    (h : runFrom ss initState recs = .ok s1) : HInv ss s1 :=
  runFrom_rec ss (HInv ss) (fun r => r.t0 ≤ r.t1)
    (fun s r s1 hq => step_HInv ss hss s r s1 hq) recs initState s1 hhon
    (by constructor <;> simp [initState]) h

theorem coincidingUpdate_cum (ss : ℚ) (s : ReadState) (r : IntervalRecord) :
    (coincidingUpdate ss s r).occupancies_cumulative =
      s.occupancies_cumulative := by
  unfold coincidingUpdate; split <;> rfl

theorem processRecord_cum_extendS (ss : ℚ) (s : ReadState)
    (r : IntervalRecord) (s1 : ReadState)
    (h : processRecord ss s r = .ok s1) :
    ∃ tl, s1.occupancies_cumulative =
      (specialUpdate ss s r).occupancies_cumulative ++ tl := by
  obtain ⟨-, -, s2, hc, hs1⟩ := processRecord_ok ss s r s1 h
  subst hs1
  rw [coincidingUpdate_cum]
  rcases classify_ok ss (specialUpdate ss s r) r s2 hc with ⟨-, hs2⟩ |
    ⟨-, hs2⟩ | ⟨-, -, hs2⟩ <;> subst hs2
  · exact ⟨[], by simp⟩
  · exact ⟨_, rfl⟩
  · exact ⟨_, rfl⟩

theorem processRecord_cum_extend (ss : ℚ) (s : ReadState)
    (r : IntervalRecord) (s1 : ReadState)
    (h : processRecord ss s r = .ok s1) :
    ∃ tl, s1.occupancies_cumulative = s.occupancies_cumulative ++ tl := by
  obtain ⟨tl, htl⟩ := processRecord_cum_extendS ss s r s1 h
  rcases specialUpdate_cases ss s r with ⟨-, hA⟩ | ⟨-, hA⟩ <;>
    rw [hA] at htl
  · exact ⟨tl, htl⟩
  · exact ⟨[(0, s.shape_list)] ++ tl, by rw [htl]; simp⟩

theorem runFrom_cum_extend (ss : ℚ) :
    ∀ (recs : List IntervalRecord) (s s1 : ReadState),
      runFrom ss s recs = .ok s1 →
      ∃ tl, s1.occupancies_cumulative = s.occupancies_cumulative ++ tl
  | [], s, s1, h => by
    unfold runFrom at h
    exact ⟨[], by rw [← Except.ok.inj h]; simp⟩
  | r :: rest, s, s1, h => by
    obtain ⟨st, he, hrun⟩ := runFrom_cons ss s r rest s1 h
    obtain ⟨t1, ht1⟩ := processRecord_cum_extend ss s r st he
    obtain ⟨t2, ht2⟩ := runFrom_cum_extend ss rest st s1 hrun
    exact ⟨t1 ++ t2, by rw [ht2, ht1, List.append_assoc]⟩

/-- Complement of the empty-group special case: every cumulative group on
record is non-empty, and the buffer is non-empty whenever the grid time is
still 0.  Holds from the first record on when that record does not start
at time 0, provided all durations are truly non-negative. -/
def NoEmptyGroup (s : ReadState) : Prop :=
  (∀ e ∈ s.occupancies_cumulative, e.2 ≠ ([] : List Polygon)) ∧
  (s.scenario_time_step = 0 → s.shape_list ≠ [])

theorem step_HK (ss : ℚ) (hss : 0 < ss) (s : ReadState)
    (r : IntervalRecord) (s1 : ReadState) (hr : r.t0 ≤ r.t1)
    (hp : HInv ss s ∧ NoEmptyGroup s)
    (h : processRecord ss s r = .ok s1) :
    HInv ss s1 ∧ NoEmptyGroup s1 := by
  refine ⟨step_HInv ss hss s r s1 hr hp.1 h, ?_⟩
  have hgpos : 0 ≤ s.scenario_time_step := by
    rw [hp.1.g_eq]
    positivity
  obtain ⟨-, -, s2, hc, hs1⟩ := processRecord_ok ss s r s1 h
  subst hs1
  have hKt : ∀ e ∈ (specialUpdate ss s r).occupancies_cumulative,
      e.2 ≠ ([] : List Polygon) := by
    rcases specialUpdate_cases ss s r with ⟨-, hA⟩ | ⟨⟨hg0, -⟩, hA⟩ <;>
      rw [hA]
    · exact hp.2.1
    · intro e he
      simp only [List.mem_append, List.mem_singleton] at he
      rcases he with he | he
      · exact hp.2.1 e he
      · subst he
        exact hp.2.2 hg0
  have hshape : (specialUpdate ss s r).shape_list = s.shape_list :=
    specialUpdate_shape ss s r
  have hgA : (specialUpdate ss s r).scenario_time_step =
      s.scenario_time_step := specialUpdate_scenario ss s r
  rcases classify_ok ss (specialUpdate ss s r) r s2 hc with ⟨ha, hs2⟩ |
    ⟨hb, hs2⟩ | ⟨h1, h2, hs2⟩
  · subst hs2
    rcases coincidingUpdate_cases ss
        { specialUpdate ss s r with
            shape_list := (specialUpdate ss s r).shape_list ++ [r.polygon] }
        r with ⟨_, hco⟩ | ⟨hy, _⟩
    · rw [hco]
      exact ⟨hKt, fun _ => by simp⟩
    · exact absurd hy.1 (not_le.mpr ha)
  · subst hs2
    rcases coincidingUpdate_cases ss
        { specialUpdate ss s r with
            occupancies_cumulative :=
              (specialUpdate ss s r).occupancies_cumulative ++
              [(pyInt ((specialUpdate ss s r).scenario_time_step / ss),
                (specialUpdate ss s r).shape_list ++ [r.polygon])]
            shape_list := [] } r with ⟨hn, _⟩ | ⟨_, hco⟩
    · rw [hgA] at hn
      exact absurd ⟨ge_of_eq (hgA ▸ hb), le_trans hr (le_of_eq hb)⟩
        (hgA ▸ hn)
    · rw [hco]
      constructor
      · intro e he
        simp only [List.mem_append, List.mem_singleton] at he
        rcases he with he | he
        · exact hKt e he
        · subst he
          simp
      · intro hg0
        exfalso
        have : s.scenario_time_step + ss = 0 := hgA ▸ hg0
        linarith
  · subst hs2
    rcases coincidingUpdate_cases ss
        { specialUpdate ss s r with
            occupancies_cumulative :=
              (specialUpdate ss s r).occupancies_cumulative ++
              [(pyInt ((specialUpdate ss s r).scenario_time_step / ss),
                (specialUpdate ss s r).shape_list ++ [r.polygon])]
            shape_list := [r.polygon] } r with ⟨hn, _⟩ | ⟨_, hco⟩
    · exact absurd ⟨le_of_lt h1, h2⟩ hn
    · rw [hco]
      constructor
      · intro e he
        simp only [List.mem_append, List.mem_singleton] at he
        rcases he with he | he
        · exact hKt e he
        · subst he
          simp
      · intro hg0
        exfalso
        have : s.scenario_time_step + ss = 0 := hgA ▸ hg0
        linarith

theorem first_step_HK (ss : ℚ) (hss : 0 < ss) (r : IntervalRecord)
    (s1 : ReadState) (hr : r.t0 ≤ r.t1) (ht0 : r.t0 ≠ 0)
    (h : processRecord ss initState r = .ok s1) :
    HInv ss s1 ∧ NoEmptyGroup s1 := by
  refine ⟨step_HInv ss hss initState r s1 hr
    (by constructor <;> simp [initState]) h, ?_⟩
  obtain ⟨-, -, s2, hc, hs1⟩ := processRecord_ok ss initState r s1 h
  subst hs1
  have hA : specialUpdate ss initState r = initState := by
    rcases specialUpdate_cases ss initState r with ⟨-, hA⟩ | ⟨⟨-, h0⟩, -⟩
    · exact hA
    · exact absurd h0 ht0
  rw [hA] at hc
  rcases classify_ok ss initState r s2 hc with ⟨ha, hs2⟩ | ⟨hb, hs2⟩ |
    ⟨h1, h2, hs2⟩
  · subst hs2
    rcases coincidingUpdate_cases ss
        { initState with
            shape_list := initState.shape_list ++ [r.polygon] } r with
      ⟨_, hco⟩ | ⟨hy, _⟩
    · rw [hco]
      exact ⟨by intro e he; simp [initState] at he, fun _ => by
        simp [initState]⟩
    · exact absurd hy.1 (not_le.mpr ha)
  · subst hs2
    rcases coincidingUpdate_cases ss
        { initState with
            occupancies_cumulative := initState.occupancies_cumulative ++
              [(pyInt (initState.scenario_time_step / ss),
                initState.shape_list ++ [r.polygon])]
            shape_list := [] } r with ⟨hn, _⟩ | ⟨_, hco⟩
    · exact absurd ⟨ge_of_eq hb, le_trans hr (le_of_eq hb)⟩ hn
    · rw [hco]
      constructor
      · intro e he
        simp only [initState, List.nil_append, List.mem_singleton] at he
        subst he
        simp
      · intro hg0
        exfalso
        have hz : initState.scenario_time_step + ss = 0 := hg0
        simp only [initState] at hz
        linarith
  · subst hs2
    rcases coincidingUpdate_cases ss
        { initState with
            occupancies_cumulative := initState.occupancies_cumulative ++
              [(pyInt (initState.scenario_time_step / ss),
                initState.shape_list ++ [r.polygon])]
            shape_list := [r.polygon] } r with ⟨hn, _⟩ | ⟨_, hco⟩
    · exact absurd ⟨le_of_lt h1, h2⟩ hn
    · rw [hco]
      constructor
      · intro e he
        simp only [initState, List.nil_append, List.mem_singleton] at he
        subst he
        simp
      · intro hg0
        exfalso
        have hz : initState.scenario_time_step + ss = 0 := hg0
        simp only [initState] at hz
        linarith

theorem runFrom_no_empty (ss : ℚ) (hss : 0 < ss) (r : IntervalRecord)
    (rest : List IntervalRecord) (s1 : ReadState)
    (hhon : ∀ x ∈ r :: rest, x.t0 ≤ x.t1) (ht0 : r.t0 ≠ 0)
    (h : runFrom ss initState (r :: rest) = .ok s1) :
    ∀ e ∈ s1.occupancies_cumulative, e.2 ≠ ([] : List Polygon) := by
  obtain ⟨st, he, hrun⟩ := runFrom_cons ss initState r rest s1 h
  have h1 := first_step_HK ss hss r st
    (hhon r (List.mem_cons_self _ _)) ht0 he
  have h2 := runFrom_rec ss (fun s => HInv ss s ∧ NoEmptyGroup s)
    (fun x => x.t0 ≤ x.t1)
    (fun s x s1 hq => step_HK ss hss s x s1 hq) rest st s1
    (fun x hx => hhon x (List.mem_cons_of_mem _ hx)) h1 hrun
  exact h2.2.1

theorem first_step_empty_head (ss : ℚ) (r : IntervalRecord)
    (s1 : ReadState) (ht0 : r.t0 = 0)
    (h : processRecord ss initState r = .ok s1) :
    ∃ tl, s1.occupancies_cumulative = (0, ([] : List Polygon)) :: tl := by
  obtain ⟨tl, htl⟩ := processRecord_cum_extendS ss initState r s1 h
  have hA : specialUpdate ss initState r =
      { initState with occupancies_cumulative :=
          initState.occupancies_cumulative ++ [(0, initState.shape_list)] }
      := by
    rcases specialUpdate_cases ss initState r with ⟨hn, -⟩ | ⟨-, hA⟩
    · exact absurd ⟨rfl, ht0⟩ hn
    · exact hA
  rw [hA] at htl
  exact ⟨tl, by simpa [initState] using htl⟩

theorem pairRows_append_single :
    ∀ (rows : List CsvRow) (extra : CsvRow), rows.length % 2 = 0 →
      pairRows (rows ++ [extra]) = pairRows rows
  | [], _, _ => rfl
  | [_], _, h => by simp at h
  | r1 :: r2 :: rest, extra, h => by
    have hrec := pairRows_append_single rest extra (by
      simp only [List.length_cons] at h
      omega)
    simp only [List.cons_append, pairRows, List.append_eq, hrec]

theorem classify_error (ss : ℚ) (s : ReadState) (r : IntervalRecord)
    (e : CsvError) (h : classify ss s r = .error e) :
    e = .notChronological := by
  unfold classify at h
  split_ifs at h
  all_goals simp_all

theorem processRecord_err_of_neg (ss : ℚ) (hss : 0 < ss) (s : ReadState)
    (r : IntervalRecord) (hneg : round5 (r.t1 - r.t0) < 0) :
    processRecord ss s r = .error .invalidTimeInterval := by
  unfold processRecord
  rw [if_neg (not_lt.mpr (le_of_lt (lt_trans hneg hss))), if_pos hneg]

theorem processRecord_err_of_big (ss : ℚ) (s : ReadState)
    (r : IntervalRecord) (hbig : ss < round5 (r.t1 - r.t0)) :
    processRecord ss s r = .error .stepSizeExceeded := by
  unfold processRecord
  rw [if_pos hbig]

theorem runFrom_err_of_mem (ss : ℚ) (P : IntervalRecord → Prop)
    (herr : ∀ s r, P r → ∃ e, processRecord ss s r = .error e) :
    ∀ (recs : List IntervalRecord) (s : ReadState),
      (∃ r ∈ recs, P r) → (runFrom ss s recs).isOk = false
  | [], _, hex => by
    obtain ⟨r, hmem, -⟩ := hex
    exact absurd hmem (List.not_mem_nil r)
  | r :: rest, s, hex => by
    unfold runFrom
    cases he : processRecord ss s r with
    | error e => rfl
    | ok st =>
      obtain ⟨x, hmem, hx⟩ := hex
      rcases List.mem_cons.mp hmem with hxr | hxrest
      · subst hxr
        obtain ⟨e, herr'⟩ := herr s x hx
        rw [herr'] at he
        exact absurd he (by simp)
      · exact runFrom_err_of_mem ss P herr rest st ⟨x, hxrest, hx⟩

theorem read_isOk_false (ss : ℚ) (rows : List CsvRow)
    (h : (runFrom ss initState (pairRows rows)).isOk = false) :
    (read_occupancy_csv ss rows).isOk = false := by
  unfold read_occupancy_csv
  cases hr : runFrom ss initState (pairRows rows) with
  | error e => rfl
  | ok s1 =>
    rw [hr] at h
    exact absurd h (by simp [Except.isOk, Except.toBool])

theorem pairwise_lt_range_map (n : ℕ) :
    List.Pairwise (· < ·) ((List.range n).map (Int.ofNat)) := by
  refine List.Pairwise.map Int.ofNat (fun a b hab => ?_)
    (List.pairwise_lt_range n)
  exact Int.ofNat_lt.mpr hab

/-- Scenario A of the spec: step size 1, two intervals, the first covering
the time span 0 to 1 with polygon polyA1 and the second the span 1 to 2
with polygon polyA2. -/
def rowsA : List CsvRow := [⟨0, [0, 1]⟩, ⟨1, [0, 1]⟩, ⟨1, [2, 3]⟩,
  ⟨2, [2, 3]⟩]

def polyA1 : Polygon := [(0, 0), (1, 1)]

def polyA2 : Polygon := [(2, 2), (3, 3)]

def predCoinA : SetBasedPrediction Polygon := ⟨0, [(0, polyA1), (1, polyA2)]⟩

def predCumA : SetBasedPrediction (List Polygon) :=
  ⟨0, [(0, []), (0, [polyA1]), (1, [polyA1, polyA2])]⟩

/-- A source encoding the single interval from time 0 to time 1. -/
def rowsOne : List CsvRow := [⟨0, [0, 1]⟩, ⟨1, [0, 1]⟩]

/-- A source with a single row, hence an odd row count. -/
def rowsOdd : List CsvRow := [⟨0, [0]⟩]

/-- A source whose single record has end time 1e-6 below its start time:
the rounded duration is 0, so both asserts pass. -/
def rowsNegTiny : List CsvRow := [⟨0, [0, 1]⟩, ⟨-1 / 1000000, [0, 1]⟩]

/-- A source whose first record runs from 1e-6 to 0 (negative duration that
rounds to 0) and whose second record starts at time 0: the second record
triggers the first-grid-point special case with an empty buffer even
though the first record does not start at 0. -/
def rowsLateEmpty : List CsvRow := [⟨1 / 1000000, [0]⟩, ⟨0, [1]⟩,
  ⟨0, [2]⟩, ⟨1, [3]⟩]

def predCoinE : SetBasedPrediction Polygon := ⟨0, [(0, [(2, 3)])]⟩

def predCumE : SetBasedPrediction (List Polygon) :=
  ⟨0, [(0, [[(0, 1)]]), (0, []), (0, [[(2, 3)]])]⟩

/-- C1, counterexample: on the single interval from 0 to 1 the run
completes, but the cumulative sequence carries time index 0 twice (the
initial empty-group emission and the index-0 close-out), so the cumulative
indices are not strictly increasing and an index repeats. -/
theorem c1_counterexample :
    (read_occupancy_csv 1 rowsOne).map
      (fun pq => pq.2.occupancy_set.map Prod.fst) = .ok [0, 0] ∧
    ¬ List.Pairwise (· < ·) ([0, 0] : List ℤ) :=
  ⟨by decide, by decide⟩

/-- C1, amended: for every successful run the coinciding indices are
strictly increasing with no duplicate, and the cumulative indices are
non-decreasing; when moreover every record pair has t1 at least t0, each
cumulative index of at least 1 occurs at most once while index 0 occurs at
most twice. -/
theorem c1_amended_monotonicity (ss : ℚ) (rows : List CsvRow)
    (pCoin : SetBasedPrediction Polygon)
    (pCum : SetBasedPrediction (List Polygon)) (hss : 0 < ss)
    (h : read_occupancy_csv ss rows = .ok (pCoin, pCum)) :
    List.Pairwise (· < ·) (pCoin.occupancy_set.map Prod.fst) ∧
    List.Pairwise (· ≤ ·) (pCum.occupancy_set.map Prod.fst) ∧
    ((∀ r ∈ pairRows rows, r.t0 ≤ r.t1) →
      (∀ n : ℤ, 1 ≤ n → (pCum.occupancy_set.map Prod.fst).count n ≤ 1) ∧
      (pCum.occupancy_set.map Prod.fst).count 0 ≤ 2) := by
  obtain ⟨s1, hrun, hpc, hpq⟩ := read_ok ss rows pCoin pCum h
  subst hpc hpq
  have hinv := runFrom_Inv ss hss (pairRows rows) s1 hrun
  refine ⟨?_, hinv.cum_mono, ?_⟩
  · dsimp only
    rw [hinv.coin_idx]
    exact pairwise_lt_range_map _
  · intro hhon
    have hh := runFrom_HInv ss hss (pairRows rows) s1 hhon hrun
    exact ⟨hh.count_pos, hh.count0⟩

/-- C1, witness: the amended statement evaluated on Scenario A. -/
theorem c1_amended_witness :
    List.Pairwise (· < ·) (predCoinA.occupancy_set.map Prod.fst) ∧
    List.Pairwise (· ≤ ·) (predCumA.occupancy_set.map Prod.fst) ∧
    (predCumA.occupancy_set.map Prod.fst).count 1 ≤ 1 ∧
    (predCumA.occupancy_set.map Prod.fst).count 0 ≤ 2 := by
  have h := c1_amended_monotonicity 1 rowsA predCoinA predCumA
    (by norm_num) (by decide)
  exact ⟨h.1, h.2.1, (h.2.2 (by decide)).1 1 (by norm_num),
    (h.2.2 (by decide)).2⟩

/-- C2: on Scenario A (step size 1, intervals 0 to 1 with polyA1 and
1 to 2 with polyA2) the reconstructor returns coinciding occupancies
polyA1 at index 0 and polyA2 at index 1, and cumulative occupancies
containing the group of polyA1 alone at index 0 and the group of polyA1
and polyA2 at index 1, the buffer having been reset after each close-out;
the cumulative list additionally starts with the initial empty-group
occupancy at index 0 that the special case emits because the first
interval starts at time 0. -/
theorem c2_scenarioA :
    read_occupancy_csv 1 rowsA = .ok (predCoinA, predCumA) := by decide

/-- C3, counterexample: a source with a single row (odd row count) is
processed without any error; the trailing unpaired row is silently
dropped, no malformed-input error is raised. -/
theorem c3_counterexample :
    rowsOdd.length % 2 = 1 ∧
    read_occupancy_csv 1 rowsOdd = .ok (⟨0, []⟩, ⟨0, []⟩) :=
  ⟨by decide, by decide⟩

/-- C3, amended: a trailing unpaired row is silently ignored: appending
one extra row to a source with an even row count does not change the
result at all, and in particular no error is raised for it. -/
theorem c3_amended_trailing_row_ignored (ss : ℚ) (rows : List CsvRow)
    (extra : CsvRow) (heven : rows.length % 2 = 0) :
    read_occupancy_csv ss (rows ++ [extra]) =
      read_occupancy_csv ss rows := by
  unfold read_occupancy_csv
  rw [pairRows_append_single rows extra heven]

/-- C3, witness: appending a junk row to the even two-row source rowsOne
leaves the result unchanged. -/
theorem c3_amended_witness :
    read_occupancy_csv 1 (rowsOne ++ [⟨5, [9]⟩]) =
      read_occupancy_csv 1 rowsOne :=
  c3_amended_trailing_row_ignored 1 rowsOne ⟨5, [9]⟩ (by decide)

/-- C4, counterexample: the single record of rowsNegTiny has end time
strictly below its start time, yet the run completes and returns a pair
of predictions, because the duration rounded to 5 decimals is 0 and both
asserts pass. -/
theorem c4_counterexample :
    ((pairRows rowsNegTiny).map fun r => decide (r.t1 < r.t0)) = [true] ∧
    read_occupancy_csv 1 rowsNegTiny = .ok (⟨0, []⟩, ⟨0, [(0, [])]⟩) :=
  ⟨by decide, by decide⟩

/-- C4, amended: the reconstructor raises the fatal invalid-time-interval
error, returning no pair of prediction objects, exactly for record pairs
whose duration rounded to 5 decimal places is strictly negative; a pair
with t1 below t0 by less than the rounding threshold passes the
validation. -/
theorem c4_amended_negative_rounded_duration (ss : ℚ) (rows : List CsvRow)
    (hss : 0 < ss)
    (hbad : ∃ r ∈ pairRows rows, round5 (r.t1 - r.t0) < 0) :
    (read_occupancy_csv ss rows).isOk = false :=
  read_isOk_false ss rows
    (runFrom_err_of_mem ss (fun r => round5 (r.t1 - r.t0) < 0)
      (fun s r hr => ⟨_, processRecord_err_of_neg ss hss s r hr⟩)
      (pairRows rows) initState hbad)

/-- C4, witness: a record pair of duration -1 makes the whole run fail. -/
theorem c4_amended_witness :
    (read_occupancy_csv 1 [⟨0, [0]⟩, ⟨-1, [1]⟩]).isOk = false :=
  c4_amended_negative_rounded_duration 1 [⟨0, [0]⟩, ⟨-1, [1]⟩]
    (by norm_num) (by decide)

/-- C5: a record pair whose duration rounded to 5 decimal places exceeds
the step size makes the loop body fail with the step-size assert, and any
source containing such a pair yields no result; a pair whose rounded
duration is at most the step size never triggers that assert. -/
theorem c5_step_size_validation (ss : ℚ) (s : ReadState)
    (r : IntervalRecord) :
    (ss < round5 (r.t1 - r.t0) →
      processRecord ss s r = .error .stepSizeExceeded ∧
      ∀ (recs : List IntervalRecord) (s0 : ReadState), r ∈ recs →
        (runFrom ss s0 recs).isOk = false) ∧
    (round5 (r.t1 - r.t0) ≤ ss →
      processRecord ss s r ≠ .error .stepSizeExceeded) := by
  constructor
  · intro hbig
    refine ⟨processRecord_err_of_big ss s r hbig, ?_⟩
    intro recs s0 hmem
    exact runFrom_err_of_mem ss (fun x => ss < round5 (x.t1 - x.t0))
      (fun st x hx => ⟨_, processRecord_err_of_big ss st x hx⟩) recs s0
      ⟨r, hmem, hbig⟩
  · intro hle h
    unfold processRecord at h
    rw [if_neg (not_lt.mpr hle)] at h
    split_ifs at h with h2
    · exact absurd h (by simp)
    · cases hc : classify ss (specialUpdate ss s r) r with
      | error e =>
        rw [hc] at h
        have he := classify_error ss _ r e hc
        subst he
        exact absurd h (by simp)
      | ok s2 =>
        rw [hc] at h
        exact absurd h (by simp)

/-- C5, witness: with step size 1, a duration-2 pair triggers exactly the
step-size error and a duration-1 pair does not. -/
theorem c5_witness :
    processRecord 1 initState ⟨0, 2, []⟩ = .error .stepSizeExceeded ∧
    processRecord 1 initState ⟨0, 1, []⟩ ≠ .error .stepSizeExceeded :=
  ⟨((c5_step_size_validation 1 initState ⟨0, 2, []⟩).1 (by decide)).1,
    (c5_step_size_validation 1 initState ⟨0, 1, []⟩).2 (by decide)⟩

/-- C6, counterexample: in rowsLateEmpty the very first interval starts at
time 1e-6, not 0, yet an empty-group cumulative occupancy at grid index 0
is emitted while processing the second record, so the emission is not
restricted to sources whose first interval starts at 0. -/
theorem c6_counterexample :
    read_occupancy_csv 1 rowsLateEmpty = .ok (predCoinE, predCumE) ∧
    ((0 : ℤ), ([] : List Polygon)) ∈ predCumE.occupancy_set ∧
    (pairRows rowsLateEmpty).head?.map IntervalRecord.t0 ≠ some 0 :=
  ⟨by decide, by decide, by decide⟩

/-- C6, amended: provided every record pair has t1 at least t0 and the
step size is positive, an empty-group cumulative occupancy at grid index 0
appears in a successful run exactly when the very first interval starts at
time 0, and in that case it is the first cumulative entry, emitted before
that interval is otherwise processed; without the non-negative-duration
proviso a later interval can trigger the emission. -/
theorem c6_amended_empty_group (ss : ℚ) (rows : List CsvRow)
    (pCoin : SetBasedPrediction Polygon)
    (pCum : SetBasedPrediction (List Polygon)) (hss : 0 < ss)
    (hhon : ∀ r ∈ pairRows rows, r.t0 ≤ r.t1)
    (h : read_occupancy_csv ss rows = .ok (pCoin, pCum)) :
    (((0 : ℤ), ([] : List Polygon)) ∈ pCum.occupancy_set ↔
      ∃ r rest, pairRows rows = r :: rest ∧ r.t0 = 0) ∧
    (∀ r rest, pairRows rows = r :: rest → r.t0 = 0 →
      pCum.occupancy_set.head? = some (0, [])) := by
  obtain ⟨s1, hrun, hpc, hpq⟩ := read_ok ss rows pCoin pCum h
  subst hpc hpq
  have hhead : ∀ r rest, pairRows rows = r :: rest → r.t0 = 0 →
      ∃ tl, s1.occupancies_cumulative = (0, ([] : List Polygon)) :: tl := by
    intro r rest hrows ht0
    rw [hrows] at hrun
    obtain ⟨st, he, hrest⟩ := runFrom_cons ss initState r rest s1 hrun
    obtain ⟨tl, htl⟩ := first_step_empty_head ss r st ht0 he
    obtain ⟨tl2, htl2⟩ := runFrom_cum_extend ss rest st s1 hrest
    exact ⟨tl ++ tl2, by rw [htl2, htl, List.cons_append]⟩
  constructor
  · constructor
    · intro hmem
      cases hrows : pairRows rows with
      | nil =>
        exfalso
        rw [hrows] at hrun
        unfold runFrom at hrun
        have hi := Except.ok.inj hrun
        dsimp only at hmem
        rw [← hi] at hmem
        simp [initState] at hmem
      | cons r rest =>
        refine ⟨r, rest, rfl, ?_⟩
        by_contra ht0
        rw [hrows] at hrun
        have hne := runFrom_no_empty ss hss r rest s1
          (hrows ▸ hhon) ht0 hrun
        exact hne _ hmem rfl
    · rintro ⟨r, rest, hrows, ht0⟩
      obtain ⟨tl, htl⟩ := hhead r rest hrows ht0
      dsimp only
      rw [htl]
      simp
  · intro r rest hrows ht0
    obtain ⟨tl, htl⟩ := hhead r rest hrows ht0
    dsimp only
    rw [htl]
    rfl

/-- C6, witness: the amended statement evaluated on Scenario A, whose
first interval starts at time 0. -/
theorem c6_amended_witness :
    (((0 : ℤ), ([] : List Polygon)) ∈ predCumA.occupancy_set) ∧
    predCumA.occupancy_set.head? = some (0, []) := by
  have h := c6_amended_empty_group 1 rowsA predCoinA predCumA
    (by norm_num) (by decide) (by decide)
  refine ⟨h.1.mpr ⟨⟨0, 1, polyA1⟩, [⟨1, 2, polyA2⟩], by decide, rfl⟩, ?_⟩
  exact h.2 ⟨0, 1, polyA1⟩ [⟨1, 2, polyA2⟩] (by decide) rfl

/-- C7: once a record pair has passed the two duration asserts, the loop
body fails with the chronological-order error exactly when both the start
and the end time lie strictly after the current grid time; in every other
classification (end before, end exactly on, or span covering the grid
time) the body succeeds. -/
theorem c7_chronological_error (ss : ℚ) (s : ReadState)
    (r : IntervalRecord) (h1 : round5 (r.t1 - r.t0) ≤ ss)
    (h2 : 0 ≤ round5 (r.t1 - r.t0)) :
    (processRecord ss s r = .error .notChronological ↔
      s.scenario_time_step < r.t0 ∧ s.scenario_time_step < r.t1) ∧
    (r.t1 ≤ s.scenario_time_step ∨ r.t0 ≤ s.scenario_time_step →
      ∃ s2, processRecord ss s r = .ok s2) := by
  have hg := specialUpdate_scenario ss s r
  have hbody : processRecord ss s r =
      match classify ss (specialUpdate ss s r) r with
      | .error e => .error e
      | .ok s2 => .ok (coincidingUpdate ss s2 r) := by
    unfold processRecord
    rw [if_neg (not_lt.mpr h1), if_neg (not_lt.mpr h2)]
  constructor
  · constructor
    · intro h
      rw [hbody] at h
      cases hc : classify ss (specialUpdate ss s r) r with
      | ok s2 =>
        rw [hc] at h
        exact absurd h (by simp)
      | error e =>
        unfold classify at hc
        split_ifs at hc with d1 d2 d3
        rw [hg] at d1 d2 d3
        exact ⟨not_le.mp d3,
          lt_of_le_of_ne (not_lt.mp d1) fun hx => d2 hx.symm⟩
    · rintro ⟨ha, hb⟩
      rw [hbody]
      have hc : classify ss (specialUpdate ss s r) r =
          .error .notChronological := by
        unfold classify
        rw [hg, if_neg (not_lt.mpr (le_of_lt hb)),
          if_neg (ne_of_gt hb), if_neg (not_le.mpr ha)]
      rw [hc]
  · intro hcase
    rw [hbody]
    have hok : ∃ s2, classify ss (specialUpdate ss s r) r = .ok s2 := by
      unfold classify
      rw [hg]
      split_ifs with d1 d2 d3
      · exact ⟨_, rfl⟩
      · exact ⟨_, rfl⟩
      · exact ⟨_, rfl⟩
      · exfalso
        rcases hcase with hc | hc
        · exact absurd (lt_of_le_of_ne hc fun hx => d2 hx) d1
        · exact d3 hc
    obtain ⟨s2, hc⟩ := hok
    rw [hc]
    exact ⟨_, rfl⟩

/-- C7, witness: from the initial grid time 0, the pair from 1 to 2 fails
with the chronological-order error while the pair from 0 to 1 succeeds. -/
theorem c7_witness :
    processRecord 1 initState ⟨1, 2, []⟩ = .error .notChronological ∧
    ∃ s2, processRecord 1 initState ⟨0, 1, []⟩ = .ok s2 :=
  ⟨(c7_chronological_error 1 initState ⟨1, 2, []⟩ (by decide)
      (by decide)).1.mpr ⟨by decide, by decide⟩,
    (c7_chronological_error 1 initState ⟨0, 1, []⟩ (by decide)
      (by decide)).2 (Or.inr (by decide))⟩

/-- C8: a record whose start and end times both equal the current grid
time makes the loop body succeed, append exactly one coinciding occupancy
at index grid-time divided by step size holding exactly that record's
polygon, and advance the grid time by one step size. -/
theorem c8_zero_duration_on_grid (ss : ℚ) (s : ReadState)
    (r : IntervalRecord) (hss : 0 < ss)
    (h0 : r.t0 = s.scenario_time_step)
    (h1 : r.t1 = s.scenario_time_step) :
    ∃ s2, processRecord ss s r = .ok s2 ∧
      s2.occupancies_coinciding = s.occupancies_coinciding ++
        [(pyInt (s.scenario_time_step / ss), r.polygon)] ∧
      s2.scenario_time_step = s.scenario_time_step + ss := by
  have hg := specialUpdate_scenario ss s r
  have hd : round5 (r.t1 - r.t0) = 0 := by
    rw [h0, h1, sub_self, round5_zero]
  have hbody : processRecord ss s r =
      match classify ss (specialUpdate ss s r) r with
      | .error e => .error e
      | .ok s2 => .ok (coincidingUpdate ss s2 r) := by
    unfold processRecord
    rw [hd, if_neg (not_lt.mpr (le_of_lt hss)), if_neg (by norm_num)]
  cases hcx : classify ss (specialUpdate ss s r) r with
  | error e =>
    exfalso
    unfold classify at hcx
    split_ifs at hcx with d1 d2 d3
    rw [hg] at d3
    exact d3 (le_of_eq h0)
  | ok s2 =>
    rcases classify_ok ss (specialUpdate ss s r) r s2 hcx with ⟨ha, -⟩ |
      ⟨-, hs2⟩ | ⟨hcc, -, -⟩
    · exfalso
      rw [hg, h1] at ha
      exact lt_irrefl _ ha
    · have hs2g : s2.scenario_time_step = s.scenario_time_step := by
        rw [hs2]
        exact hg
      have hs2c : s2.occupancies_coinciding =
          s.occupancies_coinciding := by
        rw [hs2]
        exact specialUpdate_coin ss s r
      rcases coincidingUpdate_cases ss s2 r with ⟨hn, -⟩ | ⟨-, hco⟩
      · exact absurd ⟨by rw [hs2g, h1], by rw [hs2g, h0]⟩ hn
      · refine ⟨coincidingUpdate ss s2 r, ?_, ?_, ?_⟩
        · rw [hbody, hcx]
        · rw [hco]
          dsimp only
          rw [hs2c, hs2g]
        · rw [hco]
          dsimp only
          rw [hs2g]
    · exfalso
      rw [hg, h1] at hcc
      exact lt_irrefl _ hcc

/-- C8, witness: a zero-duration record at the initial grid time 0. -/
theorem c8_witness :
    ∃ s2, processRecord 1 initState ⟨0, 0, [(5, 5)]⟩ = .ok s2 ∧
      s2.occupancies_coinciding =
        initState.occupancies_coinciding ++
        [(pyInt (initState.scenario_time_step / 1), [(5, 5)])] ∧
      s2.scenario_time_step = initState.scenario_time_step + 1 :=
  c8_zero_duration_on_grid 1 initState ⟨0, 0, [(5, 5)]⟩ (by norm_num)
    rfl rfl

/-- C9: in every successful run, every time index of the coinciding
sequence also appears among the time indices of the cumulative sequence;
within the loop body the cumulative emission at that index is completed
before the coinciding one is appended. -/
theorem c9_coinciding_subset (ss : ℚ) (rows : List CsvRow)
    (pCoin : SetBasedPrediction Polygon)
    (pCum : SetBasedPrediction (List Polygon))
    (h : read_occupancy_csv ss rows = .ok (pCoin, pCum)) :
    ∀ i ∈ pCoin.occupancy_set.map Prod.fst,
      i ∈ pCum.occupancy_set.map Prod.fst := by
  obtain ⟨s1, hrun, hpc, hpq⟩ := read_ok ss rows pCoin pCum h
  subst hpc hpq
  exact runFrom_CoinSubCum ss (pairRows rows) s1 hrun

/-- C9, witness: both coinciding indices of Scenario A occur among its
cumulative indices. -/
theorem c9_witness :
    (0 : ℤ) ∈ predCumA.occupancy_set.map Prod.fst ∧
    (1 : ℤ) ∈ predCumA.occupancy_set.map Prod.fst :=
  ⟨c9_coinciding_subset 1 rowsA predCoinA predCumA (by decide) 0
      (by decide),
    c9_coinciding_subset 1 rowsA predCoinA predCumA (by decide) 1
      (by decide)⟩

/-- C10: in every successful run with positive step size, the coinciding
time indices are exactly the consecutive integers 0, 1, ..., k with no
gaps, and the final grid time equals the number of coinciding occupancies
times the step size: the grid time advances by exactly one step size per
coinciding occupancy and never otherwise. -/
theorem c10_consecutive_indices (ss : ℚ) (rows : List CsvRow)
    (pCoin : SetBasedPrediction Polygon)
    (pCum : SetBasedPrediction (List Polygon)) (hss : 0 < ss)
    (h : read_occupancy_csv ss rows = .ok (pCoin, pCum)) :
    pCoin.occupancy_set.map Prod.fst =
      (List.range pCoin.occupancy_set.length).map Int.ofNat ∧
    ∀ s1, runFrom ss initState (pairRows rows) = .ok s1 →
      s1.scenario_time_step =
        (s1.occupancies_coinciding.length : ℚ) * ss := by
  obtain ⟨s1, hrun, hpc, hpq⟩ := read_ok ss rows pCoin pCum h
  subst hpc hpq
  have hinv := runFrom_Inv ss hss (pairRows rows) s1 hrun
  refine ⟨?_, ?_⟩
  · dsimp only
    exact hinv.coin_idx
  · intro s2 h2
    exact (runFrom_Inv ss hss (pairRows rows) s2 h2).g_eq

/-- C10, witness: the coinciding indices of Scenario A are 0, 1. -/
theorem c10_witness :
    predCoinA.occupancy_set.map Prod.fst =
      (List.range predCoinA.occupancy_set.length).map Int.ofNat :=
  (c10_consecutive_indices 1 rowsA predCoinA predCumA (by norm_num)
    (by decide)).1

end

end CheckCollision
